import Mathlib

/-!
Shallow embedding of `get_infos.py`, a set of Juniper utilities that extract
integer identifiers (interface units, VLAN tags, route targets and route
distinguishers) from structured device replies and answer membership and
next-free-value questions.

Device I/O (session setup, RPC calls, XML parsing) is performed by an external
library; here a device reply is modelled as the list of records the code
iterates over, with each accessed field carried as an `Option String`
(`find(...)` returning `None` is `none`). Python exceptions are modelled with
`Except PyErr`:
  - `.text` on a missing element  → `attributeError`
  - out-of-range `[1]` on a split → `indexError`
  - failing `int(...)`            → `valueError`
  - the unsupported-style `raise` → `typeError`
  - a local read before any assignment → `nameError` (UnboundLocalError)
-/

namespace GetInfos

/-- Python exception kinds raised by the code. -/
inductive PyErr where
  | attributeError
  | indexError
  | valueError
  | typeError
  | nameError
deriving DecidableEq

deriving instance DecidableEq for Except

/-- Tail of Python `str.split(sep)` for a single-character separator:
`acc` holds the (reversed) characters of the current chunk. -/
def splitAux (c : Char) : List Char → List Char → List String
  | [], acc => [String.mk acc.reverse]
  | x :: xs, acc =>
    if x = c then String.mk acc.reverse :: splitAux c xs []
    else splitAux c xs (x :: acc)

/-- Python `s.split(c)` for a single-character separator `c`. -/
def pySplit (c : Char) (s : String) : List String := splitAux c s.data []

/-- The whitespace characters removed by Python `str.strip()`. -/
def isPyWs (c : Char) : Bool :=
  c = ' ' || c = '\t' || c = '\n' || c = '\r' || c.toNat == 11 || c.toNat == 12

/-- Python `s.strip()`. -/
def pyStrip (s : String) : String :=
  String.mk (((s.data.dropWhile isPyWs).reverse.dropWhile isPyWs).reverse)

/-- ASCII decimal digit test. -/
def isDigitB (c : Char) : Bool := '0' ≤ c && c ≤ '9'

/-- Decimal value of a digit string. -/
def digitsToNat (ds : List Char) : Nat :=
  ds.foldl (fun a c => 10 * a + (c.toNat - 48)) 0

/-- Python `int(s)` after stripping: optional sign then one or more digits. -/
def pyIntCore : List Char → Option Int
  | [] => none
  | '+' :: ds => if ds ≠ [] ∧ ds.all isDigitB then some (digitsToNat ds : Int) else none
  | '-' :: ds => if ds ≠ [] ∧ ds.all isDigitB then some (-(digitsToNat ds : Int)) else none
  | ds => if ds.all isDigitB then some (digitsToNat ds : Int) else none

/-- Python `int(s)` on a string (`ValueError` becomes `none`). -/
def pyInt (s : String) : Option Int := pyIntCore (pyStrip s).data

/-- One `logical-interface` element of a `get_interface_information` reply,
reduced to the two fields the code reads. A `none` field models a missing
child element (`find` returns `None`). -/
structure LogicalInterface where
  name : Option String
  linkAddress : Option String
deriving DecidableEq

/-- `item.find('name').text.split('.')[1].strip()` — the unit text of a
logical interface, as computed in `get_int_units` (line 29-30) and
`find_unit_for_vlan` (line 232). -/
def unitNameE (r : LogicalInterface) : Except PyErr String :=
  match r.name with
  | none => .error .attributeError
  | some s =>
    match (pySplit '.' s).get? 1 with
    | none => .error .indexError
    | some t => .ok (pyStrip t)

/-- `int((units.split('.')[1]).strip())` from `get_int_units` (line 30). -/
def parseUnit (r : LogicalInterface) : Except PyErr Int :=
  match unitNameE r with
  | .error e => .error e
  | .ok t =>
    match pyInt t with
    | none => .error .valueError
    | some n => .ok n

/-- The `all_units` accumulation loop of `get_int_units` (lines 28-30):
the first record that fails raises, aborting the whole call. -/
def extractUnits : List LogicalInterface → Except PyErr (List Int)
  | [] => .ok []
  | r :: rs =>
    match parseUnit r with
    | .error e => .error e
    | .ok u =>
      match extractUnits rs with
      | .error e => .error e
      | .ok us => .ok (u :: us)

/-- `get_int_units` (lines 8-32): collect every record's unit and sort. -/
def get_int_units (records : List LogicalInterface) : Except PyErr (List Int) :=
  match extractUnits records with
  | .error e => .error e
  | .ok us => .ok (List.insertionSort (· ≤ ·) us)

/-- The normalization chain applied to `link-address` text:
`.split('.')[1].split(']')[0].split(' ')[0].strip()` (lines 56-59, 231, 290).
Indexing `[0]` on a split result never raises (a split is never empty). -/
def normLAE (r : LogicalInterface) : Except PyErr String :=
  match r.linkAddress with
  | none => .error .attributeError
  | some s =>
    match (pySplit '.' s).get? 1 with
    | none => .error .indexError
    | some t =>
      match pySplit ']' t with
      | [] => .error .indexError
      | t1 :: _ =>
        match pySplit ' ' t1 with
        | [] => .error .indexError
        | t2 :: _ => .ok (pyStrip t2)

/-- `int(vlandata.split(' ')[0].strip())` after the chain above
(CLASSIC branch of `get_int_vlans`, lines 55-59). -/
def parseVlanClassic (r : LogicalInterface) : Except PyErr Int :=
  match normLAE r with
  | .error e => .error e
  | .ok t =>
    match pyInt t with
    | none => .error .valueError
    | some n => .ok n

/-- The `all_vlans` accumulation loop of the CLASSIC branch (lines 55-59). -/
def extractVlansClassic : List LogicalInterface → Except PyErr (List Int)
  | [] => .ok []
  | r :: rs =>
    match parseVlanClassic r with
    | .error e => .error e
    | .ok v =>
      match extractVlansClassic rs with
      | .error e => .error e
      | .ok vs => .ok (v :: vs)

/-- CLASSIC branch of `get_int_vlans` (lines 47-61). -/
def get_int_vlans_classic (records : List LogicalInterface) : Except PyErr (List Int) :=
  match extractVlansClassic records with
  | .error e => .error e
  | .ok vs => .ok (List.insertionSort (· ≤ ·) vs)

/-- One `interface-vlan-member` element; the field read is
`interface-vlan-member-tagid`. -/
structure VlanMember where
  tagid : Option String
deriving DecidableEq

/-- A `get_ethernet_switching_interface_information` reply: the
`interface-vlan-member-list` elements, each holding its member elements. -/
structure SwitchDoc where
  memberLists : List (List VlanMember)
deriving DecidableEq

/-- `int(item.find('interface-vlan-member-tagid').text)` (line 73). -/
def parseTagE (m : VlanMember) : Except PyErr Int :=
  match m.tagid with
  | none => .error .attributeError
  | some s =>
    match pyInt s with
    | none => .error .valueError
    | some n => .ok n

/-- The inner loop of the SWITCH branch (lines 72-73): one pass over the
given members, appending each parsed tag. -/
def extractTags : List VlanMember → Except PyErr (List Int)
  | [] => .ok []
  | m :: ms =>
    match parseTagE m with
    | .error e => .error e
    | .ok n =>
      match extractTags ms with
      | .error e => .error e
      | .ok ns => .ok (n :: ns)

/-- The outer loop of the SWITCH branch (lines 71-73). The inner
`for item in interface.iter('interface-vlan-member')` iterates over the WHOLE
document again, so each pass appends every member of the document; the outer
loop runs once per `interface-vlan-member-list` element. -/
def iterLists (allMembers : List VlanMember) : Nat → Except PyErr (List Int)
  | 0 => .ok []
  | n + 1 =>
    match extractTags allMembers with
    | .error e => .error e
    | .ok ts =>
      match iterLists allMembers n with
      | .error e => .error e
      | .ok rest => .ok (ts ++ rest)

/-- SWITCH branch of `get_int_vlans` (lines 63-75). -/
def get_int_vlans_switch (doc : SwitchDoc) : Except PyErr (List Int) :=
  match iterLists doc.memberLists.flatten doc.memberLists.length with
  | .error e => .error e
  | .ok vs => .ok (List.insertionSort (· ≤ ·) vs)

/-- `get_int_vlans` (lines 34-78): branch on the device's `ifd_style` fact;
any style other than CLASSIC and SWITCH raises
`TypeError('Unsupported device type')`. The document for the branch taken is
the one the device returns for that branch's RPC. -/
def get_int_vlans (style : String) (classicDoc : List LogicalInterface)
    (switchDoc : SwitchDoc) : Except PyErr (List Int) :=
  if style = "CLASSIC" then get_int_vlans_classic classicDoc
  else if style = "SWITCH" then get_int_vlans_switch switchDoc
  else .error .typeError

/-- One routing-instance element of `config[-2]`, reduced to the two fields
read by `get_rts` and `get_rds`. -/
structure RoutingInstance where
  vrfTargetCommunity : Option String
  routeDistinguisherRdType : Option String
deriving DecidableEq

/-- The guarded body of `get_rts` (lines 102-106):
`int(item.find('vrf-target/community').text.split(':')[2])`, with every
failure (missing field, short split, bad int) swallowed by the bare
`except: pass`. -/
def parseRt (r : RoutingInstance) : Option Int :=
  r.vrfTargetCommunity.bind fun s => ((pySplit ':' s).get? 2).bind pyInt

/-- The guarded body of `get_rds` (lines 132-136):
`int(item.find('route-distinguisher/rd-type').text.split(':')[1])`, failures
swallowed likewise. -/
def parseRd (r : RoutingInstance) : Option Int :=
  r.routeDistinguisherRdType.bind fun s => ((pySplit ':' s).get? 1).bind pyInt

/-- `get_rts` (lines 80-108): skip records that fail, sort the rest. -/
def get_rts (config : List RoutingInstance) : List Int :=
  List.insertionSort (· ≤ ·) (config.filterMap parseRt)

/-- `get_rds` (lines 110-138): skip records that fail, sort the rest. -/
def get_rds (config : List RoutingInstance) : List Int :=
  List.insertionSort (· ≤ ·) (config.filterMap parseRd)

/-- The scan `next(ifilterfalse(units.__contains__, count(start)))`
(lines 211 and 260), made total with explicit fuel: try `start`,
`start + 1`, … while the candidate is in `used`. -/
def nextFreeAux (used : List Int) (start : Int) : Nat → Int
  | 0 => start
  | fuel + 1 => if start ∈ used then nextFreeAux used (start + 1) fuel else start

/-- The next-free search of `next_unit_int` and `next_unit_int_lo`. Fuel
`used.length + 1` always suffices: among `used.length + 1` consecutive
integers at least one is missing from `used` (proved below). -/
def nextFree (used : List Int) (start : Int) : Int :=
  nextFreeAux used start (used.length + 1)

/-- `next_unit_int` (lines 198-211): extract and sort the units, then scan
upward from `start` for the first integer not among them. -/
def next_unit_int (records : List LogicalInterface) (start : Int) : Except PyErr Int :=
  match get_int_units records with
  | .error e => .error e
  | .ok units => .ok (nextFree units start)

/-- The duplicated `all_units` accumulation loop inside `next_unit_int_lo`
(lines 256-258), kept as its own definition because the source duplicates
the code of `get_int_units` instead of calling it. -/
def extractUnitsLo : List LogicalInterface → Except PyErr (List Int)
  | [] => .ok []
  | r :: rs =>
    match parseUnit r with
    | .error e => .error e
    | .ok u =>
      match extractUnitsLo rs with
      | .error e => .error e
      | .ok us => .ok (u :: us)

/-- `next_unit_int_lo` (lines 234-265): same extraction (unsorted) and scan,
paired with the loopback address text obtained from the second RPC reply
(the xpath extraction of that reply is external parsing, passed in here). -/
def next_unit_int_lo (records : List LogicalInterface) (start : Int)
    (loopbackip : String) : Except PyErr (Int × String) :=
  match extractUnitsLo records with
  | .error e => .error e
  | .ok all_units => .ok (nextFree all_units start, loopbackip)

/-- `find_unit_for_vlan` (lines 213-232): scan the records; on the first one
whose normalized `link-address` text equals `vlan`, return its unit text.
Falling off the loop returns Python's implicit `None`, modelled `.ok none`. -/
def find_unit_for_vlan : List LogicalInterface → String → Except PyErr (Option String)
  | [], _ => .ok none
  | r :: rs, vlan =>
    match normLAE r with
    | .error e => .error e
    | .ok t =>
      if t = vlan then
        match unitNameE r with
        | .error e => .error e
        | .ok u => .ok (some u)
      else find_unit_for_vlan rs vlan

/-- The loop of `find_unit_for_vlan_lo` (lines 289-291): every match
overwrites the local `unit` (there is no early return), carried here as the
accumulator. -/
def fuvLoLoop (vlan : String) : List LogicalInterface → Option String →
    Except PyErr (Option String)
  | [], acc => .ok acc
  | r :: rs, acc =>
    match normLAE r with
    | .error e => .error e
    | .ok t =>
      if t = vlan then
        match unitNameE r with
        | .error e => .error e
        | .ok u => fuvLoLoop vlan rs (some u)
      else fuvLoLoop vlan rs acc

/-- `find_unit_for_vlan_lo` (lines 267-293): after the loop, `return (unit,
loopbackip)` reads `unit`; if no record matched, `unit` was never assigned
and the read raises `UnboundLocalError` (modelled `nameError`). -/
def find_unit_for_vlan_lo (records : List LogicalInterface) (vlan : String)
    (loopbackip : String) : Except PyErr (String × String) :=
  match fuvLoLoop vlan records none with
  | .error e => .error e
  | .ok none => .error .nameError
  | .ok (some u) => .ok (u, loopbackip)

/-- Generic form shared by the four strict accumulation loops
(`extractUnits`, `extractVlansClassic`, `extractTags`, `extractUnitsLo`):
apply `f` to each element, aborting at the first failure. -/
def mapE {α : Type} (f : α → Except PyErr Int) : List α → Except PyErr (List Int)
  | [] => .ok []
  | x :: xs =>
    match f x with
    | .error e => .error e
    | .ok y =>
      match mapE f xs with
      | .error e => .error e
      | .ok ys => .ok (y :: ys)

/-- The normalized `link-address` text as an optional value. -/
def normLA (r : LogicalInterface) : Option String := (normLAE r).toOption

/-- The unit text of a record as an optional value. -/
def unitName (r : LogicalInterface) : Option String := (unitNameE r).toOption

/-- A member's parsed tag as an optional value. -/
def parseTag (m : VlanMember) : Option Int := (parseTagE m).toOption

theorem extractUnits_eq (rs : List LogicalInterface) :
    extractUnits rs = mapE parseUnit rs := by
  induction rs with
  | nil => rfl
  | cons r rs ih => simp [extractUnits, mapE, ih]

theorem extractUnitsLo_eq (rs : List LogicalInterface) :
    extractUnitsLo rs = mapE parseUnit rs := by
  induction rs with
  | nil => rfl
  | cons r rs ih => simp [extractUnitsLo, mapE, ih]

theorem extractVlansClassic_eq (rs : List LogicalInterface) :
    extractVlansClassic rs = mapE parseVlanClassic rs := by
  induction rs with
  | nil => rfl
  | cons r rs ih => simp [extractVlansClassic, mapE, ih]

theorem extractTags_eq (ms : List VlanMember) :
    extractTags ms = mapE parseTagE ms := by
  induction ms with
  | nil => rfl
  | cons m ms ih => simp [extractTags, mapE, ih]

theorem mapE_ok_eq {α : Type} {f : α → Except PyErr Int} :
    ∀ {xs : List α} {ys : List Int}, mapE f xs = .ok ys →
      ys = xs.filterMap fun x => (f x).toOption := by
  intro xs
  induction xs with
  | nil =>
    intro ys h
    simp [mapE] at h
    simp [← h]
  | cons x xs ih =>
    intro ys h
    cases hfx : f x with
    | error e => simp [mapE, hfx] at h
    | ok y =>
      cases hxs : mapE f xs with
      | error e => simp [mapE, hfx, hxs] at h
      | ok ys' =>
        simp [mapE, hfx, hxs] at h
        rw [← h]
        simp [List.filterMap_cons, hfx, Except.toOption, ih hxs]

theorem mapE_ok_mem {α : Type} {f : α → Except PyErr Int} :
    ∀ {xs : List α} {ys : List Int}, mapE f xs = .ok ys →
      ∀ x ∈ xs, ∃ y, f x = .ok y := by
  intro xs
  induction xs with
  | nil => intro ys _ x hx; exact absurd hx (List.not_mem_nil x)
  | cons x xs ih =>
    intro ys h z hz
    cases hfx : f x with
    | error e => simp [mapE, hfx] at h
    | ok y =>
      cases hxs : mapE f xs with
      | error e => simp [mapE, hfx, hxs] at h
      | ok ys' =>
        rcases List.mem_cons.mp hz with rfl | hz
        · exact ⟨y, hfx⟩
        · exact ih hxs z hz

theorem mapE_ok_of_forall {α : Type} {f : α → Except PyErr Int} :
    ∀ {xs : List α}, (∀ x ∈ xs, ∃ y, f x = .ok y) → ∃ ys, mapE f xs = .ok ys := by
  intro xs
  induction xs with
  | nil => intro _; exact ⟨[], rfl⟩
  | cons x xs ih =>
    intro h
    obtain ⟨y, hy⟩ := h x (List.mem_cons_self x xs)
    obtain ⟨ys, hys⟩ := ih fun z hz => h z (List.mem_cons_of_mem x hz)
    exact ⟨y :: ys, by simp [mapE, hy, hys]⟩

theorem mapE_error_iff {α : Type} {f : α → Except PyErr Int} :
    ∀ {xs : List α}, (∃ e, mapE f xs = .error e) ↔ ∃ x ∈ xs, ∃ e, f x = .error e := by
  intro xs
  induction xs with
  | nil => simp [mapE]
  | cons x xs ih =>
    constructor
    · rintro ⟨e, he⟩
      cases hfx : f x with
      | error e' => exact ⟨x, List.mem_cons_self x xs, e', hfx⟩
      | ok y =>
        cases hxs : mapE f xs with
        | error e' =>
          obtain ⟨z, hz, hez⟩ := ih.mp ⟨e', hxs⟩
          exact ⟨z, List.mem_cons_of_mem x hz, hez⟩
        | ok ys => simp [mapE, hfx, hxs] at he
    · rintro ⟨z, hz, e, hez⟩
      rcases List.mem_cons.mp hz with rfl | hz
      · exact ⟨e, by simp [mapE, hez]⟩
      · cases hfx : f x with
        | error e' => exact ⟨e', by simp [mapE, hfx]⟩
        | ok y =>
          obtain ⟨e', he'⟩ := ih.mpr ⟨z, hz, e, hez⟩
          exact ⟨e', by simp [mapE, hfx, he']⟩

theorem mapE_ok_length {α : Type} {f : α → Except PyErr Int} :
    ∀ {xs : List α} {ys : List Int}, mapE f xs = .ok ys → ys.length = xs.length := by
  intro xs
  induction xs with
  | nil =>
    intro ys h
    simp [mapE] at h
    simp [← h]
  | cons x xs ih =>
    intro ys h
    cases hfx : f x with
    | error e => simp [mapE, hfx] at h
    | ok y =>
      cases hxs : mapE f xs with
      | error e => simp [mapE, hfx, hxs] at h
      | ok ys' =>
        simp [mapE, hfx, hxs] at h
        simp [← h, ih hxs]

theorem nextFreeAux_spec (used : List Int) :
    ∀ (fuel : Nat) (start : Int), (∃ k : Nat, k < fuel ∧ (start + k) ∉ used) →
      start ≤ nextFreeAux used start fuel ∧ nextFreeAux used start fuel ∉ used ∧
        ∀ m : Int, start ≤ m → m < nextFreeAux used start fuel → m ∈ used := by
  intro fuel
  induction fuel with
  | zero =>
    intro start h
    obtain ⟨k, hk, _⟩ := h
    exact absurd hk (Nat.not_lt_zero k)
  | succ fuel ih =>
    intro start h
    by_cases hs : start ∈ used
    · have hnext : ∃ k : Nat, k < fuel ∧ (start + 1 + k) ∉ used := by
        obtain ⟨k, hk, hkfree⟩ := h
        cases k with
        | zero => exact absurd (by simpa using hs) (by simpa using hkfree)
        | succ k =>
          refine ⟨k, Nat.lt_of_succ_lt_succ hk, ?_⟩
          have : start + 1 + (k : Int) = start + ((k : Nat) + 1 : Nat) := by
            push_cast
            ring
          rw [this]
          exact hkfree
      obtain ⟨h1, h2, h3⟩ := ih (start + 1) hnext
      have heq : nextFreeAux used start (fuel + 1) = nextFreeAux used (start + 1) fuel := by
        simp [nextFreeAux, hs]
      refine ⟨?_, ?_, ?_⟩
      · rw [heq]; omega
      · rw [heq]; exact h2
      · intro m hm1 hm2
        rw [heq] at hm2
        rcases eq_or_lt_of_le hm1 with rfl | hlt
        · exact hs
        · exact h3 m (by omega) hm2
    · have heq : nextFreeAux used start (fuel + 1) = start := by
        simp [nextFreeAux, hs]
      refine ⟨le_of_eq heq.symm, by rw [heq]; exact hs, ?_⟩
      intro m hm1 hm2
      rw [heq] at hm2
      omega

theorem exists_free_le_card (used : List Int) (start : Int) :
    ∃ k : Nat, k ≤ used.toFinset.card ∧ (start + k) ∉ used := by
  by_contra hcon
  push_neg at hcon
  have h : ∀ k : Nat, k ≤ used.toFinset.card → (start + k) ∈ used := by
    intro k hk
    by_contra hfree
    exact absurd hk (by intro h2; exact hfree (hcon k h2))
  have hsub : (Finset.range (used.toFinset.card + 1)).image (fun k : Nat => start + k) ⊆
      used.toFinset := by
    intro x hx
    simp only [Finset.mem_image, Finset.mem_range] at hx
    obtain ⟨k, hk, rfl⟩ := hx
    exact List.mem_toFinset.mpr (h k (Nat.lt_succ_iff.mp hk))
  have hinj : Function.Injective (fun k : Nat => start + (k : Int)) := by
    intro a b hab
    simpa using hab
  have hcard : used.toFinset.card + 1 ≤ used.toFinset.card := by
    calc used.toFinset.card + 1
        = ((Finset.range (used.toFinset.card + 1)).image (fun k : Nat => start + k)).card := by
          rw [Finset.card_image_of_injective _ hinj, Finset.card_range]
      _ ≤ used.toFinset.card := Finset.card_le_card hsub
  omega

theorem nextFree_spec (used : List Int) (start : Int) :
    start ≤ nextFree used start ∧ nextFree used start ∉ used ∧
      ∀ m : Int, start ≤ m → m < nextFree used start → m ∈ used := by
  obtain ⟨k, hk, hkfree⟩ := exists_free_le_card used start
  have hklen : k < used.length + 1 :=
    Nat.lt_succ_of_le (le_trans hk used.toFinset_card_le)
  exact nextFreeAux_spec used (used.length + 1) start ⟨k, hklen, hkfree⟩

theorem nextFreeAux_congr {used₁ used₂ : List Int} (hperm : List.Perm used₁ used₂) :
    ∀ (fuel : Nat) (start : Int),
      nextFreeAux used₁ start fuel = nextFreeAux used₂ start fuel := by
  intro fuel
  induction fuel with
  | zero => intro start; rfl
  | succ fuel ih =>
    intro start
    by_cases hs : start ∈ used₁
    · simp [nextFreeAux, hs, hperm.mem_iff.mp hs, ih]
    · have hs2 : start ∉ used₂ := fun h => hs (hperm.mem_iff.mpr h)
      simp [nextFreeAux, hs, hs2]

theorem nextFree_congr {used₁ used₂ : List Int} (hperm : List.Perm used₁ used₂)
    (start : Int) : nextFree used₁ start = nextFree used₂ start := by
  unfold nextFree
  rw [hperm.length_eq]
  exact nextFreeAux_congr hperm _ start

theorem get_int_units_ok_iff {records : List LogicalInterface} {out : List Int} :
    get_int_units records = .ok out ↔
      ∃ us, extractUnits records = .ok us ∧ out = List.insertionSort (· ≤ ·) us := by
  unfold get_int_units
  cases h : extractUnits records with
  | error e => simp
  | ok us => simp [eq_comm]

theorem get_int_vlans_classic_ok_iff {records : List LogicalInterface} {out : List Int} :
    get_int_vlans_classic records = .ok out ↔
      ∃ vs, extractVlansClassic records = .ok vs ∧
        out = List.insertionSort (· ≤ ·) vs := by
  unfold get_int_vlans_classic
  cases h : extractVlansClassic records with
  | error e => simp
  | ok vs => simp [eq_comm]

theorem get_int_vlans_switch_ok_iff {doc : SwitchDoc} {out : List Int} :
    get_int_vlans_switch doc = .ok out ↔
      ∃ vs, iterLists doc.memberLists.flatten doc.memberLists.length = .ok vs ∧
        out = List.insertionSort (· ≤ ·) vs := by
  unfold get_int_vlans_switch
  cases h : iterLists doc.memberLists.flatten doc.memberLists.length with
  | error e => simp
  | ok vs => simp [eq_comm]

theorem iterLists_ok_count {allMembers : List VlanMember} :
    ∀ {n : Nat} {l : List Int}, iterLists allMembers n = .ok l → ∀ v : Int,
      l.count v = n * ((allMembers.filterMap fun m => (parseTagE m).toOption).count v) := by
  intro n
  induction n with
  | zero =>
    intro l h v
    simp [iterLists] at h
    simp [h]
  | succ n ih =>
    intro l h v
    cases hts : extractTags allMembers with
    | error e => simp [iterLists, hts] at h
    | ok ts =>
      cases hrest : iterLists allMembers n with
      | error e => simp [iterLists, hts, hrest] at h
      | ok rest =>
        simp [iterLists, hts, hrest] at h
        have hts2 : ts = allMembers.filterMap fun m => (parseTagE m).toOption :=
          mapE_ok_eq (extractTags_eq allMembers ▸ hts)
        rw [← h, List.count_append, ih hrest v, ← hts2]
        ring

theorem iterLists_ok_of_forall {allMembers : List VlanMember}
    (h : ∀ m ∈ allMembers, ∃ v, parseTagE m = .ok v) :
    ∀ n : Nat, ∃ l, iterLists allMembers n = .ok l := by
  intro n
  obtain ⟨ts, hts⟩ := mapE_ok_of_forall h
  have hts2 : extractTags allMembers = .ok ts := by rw [extractTags_eq]; exact hts
  induction n with
  | zero => exact ⟨[], rfl⟩
  | succ n ih =>
    obtain ⟨l, hl⟩ := ih
    exact ⟨ts ++ l, by simp [iterLists, hts2, hl]⟩

theorem fuvLoLoop_eq_foldl {vlan : String} {records : List LogicalInterface}
    (h : ∀ r ∈ records, (normLA r).isSome ∧ (unitName r).isSome) :
    ∀ acc : Option String, fuvLoLoop vlan records acc =
      .ok (records.foldl
        (fun a r => if normLA r == some vlan then unitName r else a) acc) := by
  induction records with
  | nil => intro acc; rfl
  | cons r rs ih =>
    intro acc
    obtain ⟨hn, hu⟩ := h r (List.mem_cons_self r rs)
    have htail : ∀ x ∈ rs, (normLA x).isSome ∧ (unitName x).isSome :=
      fun x hx => h x (List.mem_cons_of_mem r hx)
    obtain ⟨t, ht⟩ := Option.isSome_iff_exists.mp hn
    have htE : normLAE r = .ok t := by
      cases hE : normLAE r with
      | error e => rw [normLA, hE] at ht; exact absurd ht (by simp [Except.toOption])
      | ok t' => rw [normLA, hE] at ht; simp [Except.toOption] at ht; rw [ht]
    by_cases hv : t = vlan
    · obtain ⟨u, hu'⟩ := Option.isSome_iff_exists.mp hu
      have huE : unitNameE r = .ok u := by
        cases hE : unitNameE r with
        | error e => rw [unitName, hE] at hu'; exact absurd hu' (by simp [Except.toOption])
        | ok u' => rw [unitName, hE] at hu'; simp [Except.toOption] at hu'; rw [hu']
      have hbeq : (normLA r == some vlan) = true := by
        rw [normLA, htE, hv]; simp [Except.toOption]
      simp only [fuvLoLoop, htE, hv, if_pos rfl, huE, List.foldl_cons, hbeq, if_true]
      rw [ih htail (some u)]
      have : unitName r = some u := by rw [unitName, huE]; rfl
      rw [this]
    · have hbeq : (normLA r == some vlan) = false := by
        rw [normLA, htE]
        simp [Except.toOption, hv]
      simp only [fuvLoLoop, htE, if_neg hv, List.foldl_cons, hbeq, Bool.false_eq_true,
        if_false]
      exact ih htail acc

theorem foldl_last_find {α : Type} (p : α → Bool) (f : α → Option String) :
    ∀ (l : List α) (acc : Option String),
      l.foldl (fun a r => if p r then f r else a) acc =
        ((l.reverse.find? p).map f).getD acc := by
  intro l
  induction l with
  | nil => intro acc; rfl
  | cons x xs ih =>
    intro acc
    rw [List.foldl_cons, ih]
    rw [List.reverse_cons, List.find?_append]
    cases hM : xs.reverse.find? p with
    | some r => simp
    | none =>
      by_cases hp : p x
      · simp [List.find?, hp]
      · simp [List.find?, hp]

theorem toOption_eq_some {α : Type} {e : Except PyErr α} {a : α} :
    e.toOption = some a ↔ e = .ok a := by
  cases e <;> simp [Except.toOption]

/-- C1: the next-free search of `next_unit_int` returns the smallest integer
`n ≥ start` absent from the extracted unit list `used`: the result is at
least `start`, is not a member of `used`, every integer in
`[start, result)` is a member of `used`, the empty list gives back `start`
itself, and `next_unit_int` returns exactly this value of the search on the
extracted (sorted) unit list. -/
theorem claim_C1 (used : List Int) (start : Int) :
    (start ≤ nextFree used start ∧ nextFree used start ∉ used ∧
      ∀ m : Int, start ≤ m → m < nextFree used start → m ∈ used) ∧
    nextFree ([] : List Int) start = start ∧
    ∀ records : List LogicalInterface, get_int_units records = Except.ok used →
      next_unit_int records start = Except.ok (nextFree used start) := by
  refine ⟨nextFree_spec used start, by simp [nextFree, nextFreeAux], ?_⟩
  intro records h
  unfold next_unit_int
  rw [h]

/-- C1 witness: on the spec's example (units 4, 2001, 2002 on the interface)
and start 2001 the search returns 2003, which is not among the units. -/
theorem claim_C1_witness :
    next_unit_int [⟨some "ge-0/2/5.4", none⟩, ⟨some "ge-0/2/5.2001", none⟩,
        ⟨some "ge-0/2/5.2002", none⟩] 2001 = Except.ok 2003 ∧
    nextFree [4, 2001, 2002] 2001 ∉ ([4, 2001, 2002] : List Int) := by
  have h := claim_C1 [4, 2001, 2002] 2001
  refine ⟨?_, h.1.2.1⟩
  rw [h.2.2 _ (by decide)]
  decide

/-- C2: the next-free search is total, and its result never exceeds
`start + |used| + 1`, where `|used|` is the number of distinct used values. -/
theorem claim_C2 (used : List Int) (start : Int) :
    nextFree used start ≤ start + used.toFinset.card + 1 := by
  obtain ⟨k, hk, hkfree⟩ := exists_free_le_card used start
  obtain ⟨_, _, h3⟩ := nextFree_spec used start
  by_contra hgt
  push_neg at hgt
  have hmem : (start + k : Int) ∈ used := by
    refine h3 (start + k) (by omega) ?_
    have : (k : Int) ≤ used.toFinset.card := by exact_mod_cast hk
    omega
  exact hkfree hmem

/-- C10: the first component of `next_unit_int_lo` agrees with
`next_unit_int` on every record list and start value (the duplicated
extraction loop plus the scan over the unsorted unit list is extensionally
the standalone operation, which scans the sorted list). -/
theorem claim_C10 (records : List LogicalInterface) (start : Int) (loopbackip : String) :
    (next_unit_int_lo records start loopbackip).map Prod.fst =
      next_unit_int records start := by
  unfold next_unit_int_lo next_unit_int get_int_units
  rw [extractUnitsLo_eq, extractUnits_eq]
  cases h : mapE parseUnit records with
  | error e => rfl
  | ok us =>
    simp [Except.map, nextFree_congr (List.perm_insertionSort (· ≤ ·) us) start]

/-- C3: when `get_int_units` succeeds, its output is exactly the sorted list
of the integers parsed from the text after the `.` of each record's `name`
field, and any permutation of the records yields the same output. -/
theorem claim_C3 (records : List LogicalInterface) (out : List Int)
    (h : get_int_units records = Except.ok out) :
    out = List.insertionSort (· ≤ ·)
        (records.filterMap fun r => (parseUnit r).toOption) ∧
    List.Sorted (· ≤ ·) out ∧
    ∀ records₂ : List LogicalInterface, List.Perm records₂ records →
      get_int_units records₂ = Except.ok out := by
  obtain ⟨us, hus, hout⟩ := get_int_units_ok_iff.mp h
  have husM : mapE parseUnit records = .ok us := by
    rw [← extractUnits_eq]; exact hus
  have husE := mapE_ok_eq husM
  refine ⟨by rw [hout, husE], hout ▸ List.sorted_insertionSort _ us, ?_⟩
  intro records₂ hperm
  have hall : ∀ r ∈ records₂, ∃ y, parseUnit r = .ok y := fun r hr =>
    mapE_ok_mem husM r (hperm.mem_iff.mp hr)
  obtain ⟨ys, hys⟩ := mapE_ok_of_forall hall
  rw [get_int_units_ok_iff]
  refine ⟨ys, by rw [extractUnits_eq]; exact hys, ?_⟩
  have hpermYs : List.Perm ys us := by
    rw [mapE_ok_eq hys, husE]
    exact hperm.filterMap _
  have hsortPerm : List.Perm (List.insertionSort (· ≤ ·) us)
      (List.insertionSort (· ≤ ·) ys) :=
    ((List.perm_insertionSort _ us).trans hpermYs.symm).trans
      (List.perm_insertionSort _ ys).symm
  rw [hout]
  exact List.eq_of_perm_of_sorted hsortPerm (List.sorted_insertionSort _ us)
    (List.sorted_insertionSort _ ys)

/-- C3 witness: on the spec's example records the call returns
`[4, 2001, 2002]`, equal to the sorted extracted identifiers, and a permuted
record order gives the same output. -/
theorem claim_C3_witness :
    ([4, 2001, 2002] : List Int) = List.insertionSort (· ≤ ·)
        (([⟨some "ge-0/2/5.4", none⟩, ⟨some "ge-0/2/5.2001", none⟩,
          ⟨some "ge-0/2/5.2002", none⟩] : List LogicalInterface).filterMap
            fun r => (parseUnit r).toOption) ∧
    get_int_units [⟨some "ge-0/2/5.2002", none⟩, ⟨some "ge-0/2/5.4", none⟩,
        ⟨some "ge-0/2/5.2001", none⟩] = Except.ok [4, 2001, 2002] := by
  have h := claim_C3 [⟨some "ge-0/2/5.4", none⟩, ⟨some "ge-0/2/5.2001", none⟩,
    ⟨some "ge-0/2/5.2002", none⟩] [4, 2001, 2002] (by decide)
  exact ⟨h.1, h.2.2 _ (by decide)⟩

theorem get_int_units_error_iff {records : List LogicalInterface} :
    (∃ e, get_int_units records = .error e) ↔
      ∃ e, extractUnits records = .error e := by
  unfold get_int_units
  cases h : extractUnits records with
  | error e => simp
  | ok us => simp

theorem get_int_vlans_classic_error_iff {records : List LogicalInterface} :
    (∃ e, get_int_vlans_classic records = .error e) ↔
      ∃ e, extractVlansClassic records = .error e := by
  unfold get_int_vlans_classic
  cases h : extractVlansClassic records with
  | error e => simp
  | ok vs => simp

/-- C4: in `get_int_units` and in the CLASSIC branch of `get_int_vlans`, a
record with a missing field or unparsable text makes the whole call raise
(the error propagates), and exactly in that case; when the call succeeds
every record contributed one value, so none was silently skipped. -/
theorem claim_C4 (records : List LogicalInterface) :
    ((∃ e, get_int_units records = Except.error e) ↔
      ∃ r ∈ records, ∃ e, parseUnit r = Except.error e) ∧
    ((∃ e, get_int_vlans_classic records = Except.error e) ↔
      ∃ r ∈ records, ∃ e, parseVlanClassic r = Except.error e) ∧
    (∀ out, get_int_units records = Except.ok out → out.length = records.length) ∧
    (∀ out, get_int_vlans_classic records = Except.ok out →
      out.length = records.length) := by
  refine ⟨?_, ?_, ?_, ?_⟩
  · rw [get_int_units_error_iff, extractUnits_eq]
    exact mapE_error_iff
  · rw [get_int_vlans_classic_error_iff, extractVlansClassic_eq]
    exact mapE_error_iff
  · intro out h
    obtain ⟨us, hus, hout⟩ := get_int_units_ok_iff.mp h
    have hlen : us.length = records.length :=
      mapE_ok_length (by rw [← extractUnits_eq]; exact hus)
    rw [hout, (List.perm_insertionSort _ us).length_eq, hlen]
  · intro out h
    obtain ⟨vs, hvs, hout⟩ := get_int_vlans_classic_ok_iff.mp h
    have hlen : vs.length = records.length :=
      mapE_ok_length (by rw [← extractVlansClassic_eq]; exact hvs)
    rw [hout, (List.perm_insertionSort _ vs).length_eq, hlen]

/-- C4 witness: a record whose `name` element is missing makes
`get_int_units` raise, and on the one-good-record input the output has one
element per record. -/
theorem claim_C4_witness :
    (∃ e, get_int_units [(⟨none, none⟩ : LogicalInterface)] = Except.error e) ∧
    ([4] : List Int).length =
      ([⟨some "ge-0/2/5.4", none⟩] : List LogicalInterface).length := by
  refine ⟨(claim_C4 [⟨none, none⟩]).1.mpr ⟨⟨none, none⟩, by simp, ?_⟩,
    (claim_C4 [⟨some "ge-0/2/5.4", none⟩]).2.2.1 [4] (by decide)⟩
  exact ⟨PyErr.attributeError, by decide⟩

/-- C5: in `get_rts` and `get_rds` a record whose field is missing or
unparsable is skipped without affecting the rest: deleting such a record
does not change the result, and every well-formed record's value appears in
the result. -/
theorem claim_C5 :
    (∀ (pre post : List RoutingInstance) (bad : RoutingInstance),
      parseRt bad = none → get_rts (pre ++ bad :: post) = get_rts (pre ++ post)) ∧
    (∀ (pre post : List RoutingInstance) (bad : RoutingInstance),
      parseRd bad = none → get_rds (pre ++ bad :: post) = get_rds (pre ++ post)) ∧
    (∀ (config : List RoutingInstance) (r : RoutingInstance) (v : Int),
      r ∈ config → parseRt r = some v → v ∈ get_rts config) ∧
    (∀ (config : List RoutingInstance) (r : RoutingInstance) (v : Int),
      r ∈ config → parseRd r = some v → v ∈ get_rds config) := by
  refine ⟨?_, ?_, ?_, ?_⟩
  · intro pre post bad hbad
    simp [get_rts, List.filterMap_append, List.filterMap_cons, hbad]
  · intro pre post bad hbad
    simp [get_rds, List.filterMap_append, List.filterMap_cons, hbad]
  · intro config r v hr hv
    exact (List.perm_insertionSort _ _).mem_iff.mpr
      (List.mem_filterMap.mpr ⟨r, hr, hv⟩)
  · intro config r v hr hv
    exact (List.perm_insertionSort _ _).mem_iff.mpr
      (List.mem_filterMap.mpr ⟨r, hr, hv⟩)

/-- C5 witness: one instance with no `vrf-target/community` (and no
`route-distinguisher/rd-type`) is skipped while the good instance still
contributes 27 to both results. -/
theorem claim_C5_witness :
    get_rts [⟨some "target:64512:27", some "10.92.1.1:27"⟩, ⟨none, none⟩] =
      get_rts [⟨some "target:64512:27", some "10.92.1.1:27"⟩] ∧
    (27 : Int) ∈ get_rts [⟨some "target:64512:27", some "10.92.1.1:27"⟩, ⟨none, none⟩] ∧
    get_rds [⟨some "target:64512:27", some "10.92.1.1:27"⟩, ⟨none, none⟩] =
      get_rds [⟨some "target:64512:27", some "10.92.1.1:27"⟩] ∧
    (27 : Int) ∈ get_rds [⟨some "target:64512:27", some "10.92.1.1:27"⟩, ⟨none, none⟩] := by
  refine ⟨claim_C5.1 [⟨some "target:64512:27", some "10.92.1.1:27"⟩] [] ⟨none, none⟩
      (by decide),
    claim_C5.2.2.1 _ ⟨some "target:64512:27", some "10.92.1.1:27"⟩ 27 (by simp)
      (by decide),
    claim_C5.2.1 [⟨some "target:64512:27", some "10.92.1.1:27"⟩] [] ⟨none, none⟩
      (by decide),
    claim_C5.2.2.2 _ ⟨some "target:64512:27", some "10.92.1.1:27"⟩ 27 (by simp)
      (by decide)⟩

/-- C6: `get_int_vlans` raises `TypeError` whenever the externally supplied
`ifd_style` flag is neither `CLASSIC` nor `SWITCH`, and for each of the two
known variants it returns a sorted integer list without raising, given
well-formed records. -/
theorem claim_C6 (style : String) (classicDoc : List LogicalInterface)
    (switchDoc : SwitchDoc) :
    (style ≠ "CLASSIC" → style ≠ "SWITCH" →
      get_int_vlans style classicDoc switchDoc = Except.error PyErr.typeError) ∧
    (style = "CLASSIC" → (∀ r ∈ classicDoc, ∃ v, parseVlanClassic r = Except.ok v) →
      ∃ out, get_int_vlans style classicDoc switchDoc = Except.ok out ∧
        List.Sorted (· ≤ ·) out) ∧
    (style = "SWITCH" →
      (∀ m ∈ switchDoc.memberLists.flatten, ∃ v, parseTagE m = Except.ok v) →
      ∃ out, get_int_vlans style classicDoc switchDoc = Except.ok out ∧
        List.Sorted (· ≤ ·) out) := by
  refine ⟨?_, ?_, ?_⟩
  · intro h1 h2
    simp [get_int_vlans, h1, h2]
  · rintro rfl hwf
    obtain ⟨vs, hvs⟩ := mapE_ok_of_forall hwf
    have h2 : extractVlansClassic classicDoc = .ok vs := by
      rw [extractVlansClassic_eq]; exact hvs
    exact ⟨List.insertionSort (· ≤ ·) vs,
      by simp [get_int_vlans, get_int_vlans_classic, h2],
      List.sorted_insertionSort _ vs⟩
  · rintro rfl hwf
    obtain ⟨l, hl⟩ := iterLists_ok_of_forall hwf switchDoc.memberLists.length
    have hne : ("SWITCH" : String) ≠ "CLASSIC" := by decide
    exact ⟨List.insertionSort (· ≤ ·) l,
      by simp [get_int_vlans, hne, get_int_vlans_switch, hl],
      List.sorted_insertionSort _ l⟩

/-- C6 witness: an unknown style raises `TypeError`; each known style on a
well-formed document returns a sorted list. -/
theorem claim_C6_witness :
    get_int_vlans "FOO" [] ⟨[]⟩ = Except.error PyErr.typeError ∧
    (∃ out, get_int_vlans "CLASSIC" [⟨none, some "[ 0.7 ]"⟩] ⟨[]⟩ = Except.ok out ∧
      List.Sorted (· ≤ ·) out) ∧
    (∃ out, get_int_vlans "SWITCH" [] ⟨[[⟨some "5"⟩]]⟩ = Except.ok out ∧
      List.Sorted (· ≤ ·) out) := by
  refine ⟨(claim_C6 "FOO" [] ⟨[]⟩).1 (by decide) (by decide),
    (claim_C6 "CLASSIC" [⟨none, some "[ 0.7 ]"⟩] ⟨[]⟩).2.1 rfl ?_,
    (claim_C6 "SWITCH" [] ⟨[[⟨some "5"⟩]]⟩).2.2 rfl ?_⟩
  · intro r hr
    simp at hr
    subst hr
    exact ⟨7, by decide⟩
  · intro m hm
    simp at hm
    subst hm
    exact ⟨5, by decide⟩

/-- C7: evaluation at a record list with no matching VLAN. The claim (and
the spec) require a distinguishable explicit NOT_FOUND result that neither
throws nor surfaces an undefined value; instead `find_unit_for_vlan_lo`
raises `UnboundLocalError` (the local `unit` is read without ever being
assigned) and `find_unit_for_vlan` falls off the loop, surfacing Python's
implicit `None`. -/
theorem claim_C7 :
    find_unit_for_vlan_lo [⟨some "ge-0/0/0.1", some "[ 0.7 ]"⟩] "9999" "10.1.1.1" =
      Except.error PyErr.nameError ∧
    find_unit_for_vlan [⟨some "ge-0/0/0.1", some "[ 0.7 ]"⟩] "9999" =
      Except.ok none := by
  decide

theorem find_unit_for_vlan_eq_find {vlan : String} :
    ∀ {records : List LogicalInterface},
      (∀ r ∈ records, (normLA r).isSome ∧ (unitName r).isSome) →
      find_unit_for_vlan records vlan =
        .ok ((records.find? fun x => normLA x == some vlan).bind unitName) := by
  intro records
  induction records with
  | nil => intro _; rfl
  | cons r rs ih =>
    intro h
    obtain ⟨hn, hu⟩ := h r (List.mem_cons_self r rs)
    have htail : ∀ x ∈ rs, (normLA x).isSome ∧ (unitName x).isSome :=
      fun x hx => h x (List.mem_cons_of_mem r hx)
    obtain ⟨t, ht⟩ := Option.isSome_iff_exists.mp hn
    have htE : normLAE r = .ok t := toOption_eq_some.mp ht
    by_cases hv : t = vlan
    · subst hv
      obtain ⟨u, hu'⟩ := Option.isSome_iff_exists.mp hu
      have huE : unitNameE r = .ok u := toOption_eq_some.mp hu'
      have hbeq : (fun x => normLA x == some t) r = true := by
        simp [normLA, htE, Except.toOption]
      have hfind : List.find? (fun x => normLA x == some t) (r :: rs) = some r :=
        @List.find?_cons_of_pos _ (fun x => normLA x == some t) r rs hbeq
      rw [hfind]
      simp only [find_unit_for_vlan, htE, if_pos rfl, huE, Option.some_bind]
      have : unitName r = some u := by rw [unitName, huE]; rfl
      rw [this]
      simp
    · have hbeq : ¬ ((fun x => normLA x == some vlan) r = true) := by
        simp [normLA, htE, Except.toOption, hv]
      have hfind : List.find? (fun x => normLA x == some vlan) (r :: rs) =
          List.find? (fun x => normLA x == some vlan) rs :=
        @List.find?_cons_of_neg _ (fun x => normLA x == some vlan) r rs hbeq
      rw [hfind]
      rw [← ih htail]
      simp only [find_unit_for_vlan, htE, if_neg hv]

/-- C8 counterexample: two records both carry normalized VLAN text `7`; the
first in scan order has unit text `1`, yet `find_unit_for_vlan_lo` returns
`2`, the unit of the LAST matching record, while `find_unit_for_vlan`
returns `1` — so the two functions do not both return the first match. -/
theorem claim_C8_counterexample :
    find_unit_for_vlan [⟨some "ge-0/0/0.1", some "[ 0.7 ]"⟩,
        ⟨some "ge-0/0/0.2", some "[ 0.7 ]"⟩] "7" = Except.ok (some "1") ∧
    find_unit_for_vlan_lo [⟨some "ge-0/0/0.1", some "[ 0.7 ]"⟩,
        ⟨some "ge-0/0/0.2", some "[ 0.7 ]"⟩] "7" "10.1.1.1" =
      Except.ok ("2", "10.1.1.1") ∧
    normLA ⟨some "ge-0/0/0.1", some "[ 0.7 ]"⟩ = some "7" ∧
    unitName ⟨some "ge-0/0/0.1", some "[ 0.7 ]"⟩ = some "1" ∧
    normLA ⟨some "ge-0/0/0.2", some "[ 0.7 ]"⟩ = some "7" ∧
    unitName ⟨some "ge-0/0/0.2", some "[ 0.7 ]"⟩ = some "2" := by
  decide

/-- C8 amended: on well-formed records, matching compares normalized
`link-address` text against the key; `find_unit_for_vlan` returns the unit
text of the FIRST matching record, while `find_unit_for_vlan_lo` returns
the unit text of the LAST matching record. -/
theorem claim_C8_amended (records : List LogicalInterface) (vlan : String)
    (h : ∀ r ∈ records, (normLA r).isSome ∧ (unitName r).isSome) :
    (∀ r, records.find? (fun x => normLA x == some vlan) = some r →
      find_unit_for_vlan records vlan = Except.ok (unitName r)) ∧
    (∀ r u lo, records.reverse.find? (fun x => normLA x == some vlan) = some r →
      unitName r = some u →
      find_unit_for_vlan_lo records vlan lo = Except.ok (u, lo)) := by
  constructor
  · intro r hfind
    rw [find_unit_for_vlan_eq_find h, hfind]
    rfl
  · intro r u lo hfind hu
    unfold find_unit_for_vlan_lo
    rw [fuvLoLoop_eq_foldl h none, foldl_last_find, hfind]
    simp only [Option.map_some', Option.getD_some, hu]

/-- C8 witness: with a single matching record (first match = last match)
both lookups return its unit text. -/
theorem claim_C8_witness :
    find_unit_for_vlan [⟨some "ge-0/0/0.3", some "[ 0.9 ]"⟩] "9" =
      Except.ok (some "3") ∧
    find_unit_for_vlan_lo [⟨some "ge-0/0/0.3", some "[ 0.9 ]"⟩] "9" "10.1.1.1" =
      Except.ok ("3", "10.1.1.1") := by
  have h := claim_C8_amended [⟨some "ge-0/0/0.3", some "[ 0.9 ]"⟩] "9" (by decide)
  exact ⟨by rw [h.1 ⟨some "ge-0/0/0.3", some "[ 0.9 ]"⟩ (by decide)]; decide,
    h.2 ⟨some "ge-0/0/0.3", some "[ 0.9 ]"⟩ "3" "10.1.1.1" (by decide) (by decide)⟩

/-- C9 counterexample: a SWITCH document with two member-lists holding tags
5 and 7 yields `[5, 5, 7, 7]` — not pairwise distinct, and tag 5 is emitted
twice though it occurs once — because the inner loop re-iterates the whole
document once per member-list; and a unit record with text `-3` parses to a
negative output. -/
theorem claim_C9_counterexample :
    get_int_vlans_switch ⟨[[⟨some "5"⟩], [⟨some "7"⟩]]⟩ = Except.ok [5, 5, 7, 7] ∧
    ¬ ([5, 5, 7, 7] : List Int).Nodup ∧
    get_int_units [⟨some "x.-3", none⟩] = Except.ok [-3] := by
  decide

/-- C9 amended: every extraction operation returns a sorted (non-decreasing)
integer sequence, but its elements need not be pairwise distinct nor
non-negative; in SWITCH mode each value occurs (number of member-lists) ×
(number of members parsing to it) times, since the inner loop rescans every
member of the document once per member-list. -/
theorem claim_C9_amended :
    (∀ (records : List LogicalInterface) (out : List Int),
      get_int_units records = Except.ok out → List.Sorted (· ≤ ·) out) ∧
    (∀ (records : List LogicalInterface) (out : List Int),
      get_int_vlans_classic records = Except.ok out → List.Sorted (· ≤ ·) out) ∧
    (∀ (doc : SwitchDoc) (out : List Int),
      get_int_vlans_switch doc = Except.ok out → List.Sorted (· ≤ ·) out) ∧
    (∀ config : List RoutingInstance, List.Sorted (· ≤ ·) (get_rts config)) ∧
    (∀ config : List RoutingInstance, List.Sorted (· ≤ ·) (get_rds config)) ∧
    (∀ (doc : SwitchDoc) (out : List Int) (v : Int),
      get_int_vlans_switch doc = Except.ok out →
      out.count v = doc.memberLists.length *
        ((doc.memberLists.flatten.filterMap fun m => (parseTagE m).toOption).count v)) := by
  refine ⟨?_, ?_, ?_, fun c => List.sorted_insertionSort _ _,
    fun c => List.sorted_insertionSort _ _, ?_⟩
  · intro records out h
    obtain ⟨us, _, hout⟩ := get_int_units_ok_iff.mp h
    exact hout ▸ List.sorted_insertionSort _ us
  · intro records out h
    obtain ⟨vs, _, hout⟩ := get_int_vlans_classic_ok_iff.mp h
    exact hout ▸ List.sorted_insertionSort _ vs
  · intro doc out h
    obtain ⟨vs, _, hout⟩ := get_int_vlans_switch_ok_iff.mp h
    exact hout ▸ List.sorted_insertionSort _ vs
  · intro doc out v h
    obtain ⟨vs, hvs, hout⟩ := get_int_vlans_switch_ok_iff.mp h
    rw [hout, (List.perm_insertionSort _ vs).count_eq]
    exact iterLists_ok_count hvs v

/-- C9 witness: on the two-member-list document the output `[5, 5, 7, 7]`
is sorted and contains 5 exactly (2 member-lists) × (1 member with tag 5)
times. -/
theorem claim_C9_witness :
    List.Sorted (· ≤ ·) ([5, 5, 7, 7] : List Int) ∧
    ([5, 5, 7, 7] : List Int).count 5 =
      (⟨[[⟨some "5"⟩], [⟨some "7"⟩]]⟩ : SwitchDoc).memberLists.length *
        (((⟨[[⟨some "5"⟩], [⟨some "7"⟩]]⟩ : SwitchDoc).memberLists.flatten.filterMap
          fun m => (parseTagE m).toOption).count 5) := by
  have h := claim_C9_amended
  exact ⟨h.2.2.1 ⟨[[⟨some "5"⟩], [⟨some "7"⟩]]⟩ [5, 5, 7, 7] (by decide),
    h.2.2.2.2.2 ⟨[[⟨some "5"⟩], [⟨some "7"⟩]]⟩ [5, 5, 7, 7] 5 (by decide)⟩

end GetInfos
